import Mathlib

/-!
Verification of the PDF redaction MCP server (`src/pdf_redaction_mcp/server.py`)
against its natural-language specification.

The server is a thin orchestration layer over an external PDF engine
(pymupdf).  The orchestration code (the tool functions) is translated here
definition by definition from `server.py`.  The engine itself is not part of
the repository; its primitives (page text, literal-text search, staging a
redaction annotation, committing redactions, image enumeration) are modelled
from the spec's description of the engine interface, over a concrete page
model: a page is a list of located text spans, a list of placed images, and a
list of staged (uncommitted) redaction marks.
-/

set_option autoImplicit false

namespace PdfRedactionMcp

/-- A rectangle with rational coordinates, modelling pymupdf's `Rect`
(x0, y0, x1, y1). -/
structure Rect where
  x0 : ℚ
  y0 : ℚ
  x1 : ℚ
  y1 : ℚ
deriving DecidableEq

/-- Modelled from the spec / pymupdf: the sentinel "infinite rectangle"
(MuPDF's FZ_MIN_INF_RECT / FZ_MAX_INF_RECT corners); `get_image_bbox`
returns it when an image has no placement on the page. -/
def infiniteRect : Rect := ⟨-2147483648, -2147483648, 2147483647, 2147483647⟩

/-- pymupdf's `Rect.is_infinite`: true exactly for the infinite rectangle. -/
def Rect.isInfinite (r : Rect) : Bool := r = infiniteRect

/-- pymupdf's `Rect.is_empty`: a degenerate rectangle, with no interior. -/
def Rect.isDegenerate (r : Rect) : Bool := r.x1 ≤ r.x0 || r.y1 ≤ r.y0

/-- Two closed rectangles share at least one point. -/
def Rect.intersects (r s : Rect) : Bool :=
  decide (max r.x0 s.x0 ≤ min r.x1 s.x1) && decide (max r.y0 s.y0 ≤ min r.y1 s.y1)

/-- A rectangle is proper when x0 ≤ x1 and y0 ≤ y1 (pymupdf rects of real
page content are of this shape). -/
def Rect.proper (r : Rect) : Bool := decide (r.x0 ≤ r.x1) && decide (r.y0 ≤ r.y1)

/-- An RGB colour, three channels in the 0–1 range. -/
abbrev Color := ℚ × ℚ × ℚ

/-- A located run of text on a page: the granularity at which the modelled
engine reports and removes content. -/
structure Span where
  rect : Rect
  text : String
deriving DecidableEq

/-- An embedded image placed on a page, with the bounding box that
`page.get_image_bbox` resolves for it. -/
structure PdfImage where
  name : String
  bbox : Rect
deriving DecidableEq

/-- A staged, not-yet-committed redaction annotation (`add_redact_annot`). -/
structure Mark where
  rect : Rect
  overlayText : String
  fill : Color
  textColor : Option Color
deriving DecidableEq

/-- A page: its text spans, its images and its staged redaction marks. -/
structure Page where
  spans : List Span
  images : List PdfImage
  marks : List Mark
deriving DecidableEq

/-- A document is its list of pages; `len(doc)` is the list's length. -/
abbrev Document := List Page

/-- Whether `pat` occurs at the head of `l`. -/
def leadsWith : List Char → List Char → Bool
  | [], _ => true
  | _ :: _, [] => false
  | a :: as, b :: bs => a == b && leadsWith as bs

/-- Number of positions of `text` at which the nonempty pattern `pat`
occurs (0 for the empty pattern). -/
def countOccsFrom (pat : List Char) : List Char → Nat
  | [] => 0
  | c :: rest => (if leadsWith pat (c :: rest) then 1 else 0) + countOccsFrom pat rest

/-- Occurrence count of `pat` in `text`; the empty pattern never occurs. -/
def countOccs (pat text : List Char) : Nat :=
  if pat.isEmpty then 0 else countOccsFrom pat text

/-- The document-level text of a page: concatenation of its span texts
(`page.get_text("text")`). -/
def Page.getText (p : Page) : String := String.join (p.spans.map Span.text)

/-- Modelled from the spec: the engine's literal-text locator
(`page.search_for`), which "returns one box per visual occurrence" — here,
one copy of a span's box per occurrence of the needle inside that span.
Staged marks do not affect it (uncommitted marks are not observable). -/
def Page.searchFor (p : Page) (needle : String) : List Rect :=
  p.spans.flatMap (fun sp => List.replicate (countOccs needle.data sp.text.data) sp.rect)

/-- Modelled from the spec: `page.add_redact_annot` stages a mark; it
mutates nothing else. -/
def Page.addRedactAnnot (p : Page) (r : Rect) (text : String) (fill : Color)
    (textColor : Option Color) : Page :=
  { p with marks := p.marks ++ [⟨r, text, fill, textColor⟩] }

/-- Modelled from the spec: `page.apply_redactions` destructively removes
the content under the staged marks — every span whose box meets a mark, and,
when the image-removal policy is on, every image whose box meets a mark —
and clears the staged marks. -/
def Page.applyRedactions (p : Page) (removeImages : Bool) : Page :=
  { spans := p.spans.filter (fun sp => !(p.marks.any (fun m => m.rect.intersects sp.rect)))
    images :=
      if removeImages then
        p.images.filter (fun im => !(p.marks.any (fun m => m.rect.intersects im.bbox)))
      else p.images
    marks := [] }

/-- The engine's native block-level breakdown of a page
(`page.get_text("dict")["blocks"]`), modelled as the span list itself. -/
def Page.getBlocks (p : Page) : List Span := p.spans

/-- A page with no content, used only as the default of total lookups whose
callers have already established the index is in range. -/
def emptyPage : Page := ⟨[], [], []⟩

/-- Total page lookup at a natural index. -/
def pageAtN (doc : Document) (i : Nat) : Page := (doc[i]?).getD emptyPage

/-- `doc[i]` of pymupdf: 0-based, negative indices count from the end, any
other index raises (modelled as `Except.error`). -/
def docGet (doc : Document) (i : Int) : Except String Page :=
  let j := if i < 0 then i + (doc.length : Int) else i
  if 0 ≤ j then
    match doc[j.toNat]? with
    | some p => .ok p
    | none => .error "page not in document"
  else .error "page not in document"

/-- Replace page `i` of the document by its image under `f` (the functional
rendering of in-place page mutation); out-of-range indices leave the
document unchanged. -/
def updatePageAt : Document → Nat → (Page → Page) → Document
  | [], _, _ => []
  | p :: rest, 0, f => f p :: rest
  | p :: rest, i + 1, f => p :: updatePageAt rest i f

/-- pymupdf's TEXT_PRESERVE_WHITESPACE flag value. -/
def textPreserveWhitespace : Nat := 1

/-- Modelled from the spec: Python's `re.finditer` for the regex branch of
the search tool, external to this repository; rendered for literal patterns,
with optional case folding, returning one matched-group string per
occurrence. No claim depends on regex semantics. -/
def reFinditer (pat text : String) (ignoreCase : Bool) : List String :=
  let t := if ignoreCase then text.toLower else text
  let p := if ignoreCase then pat.toLower else pat
  List.replicate (countOccs p.data t.data) p

/-- One record of `search_text_in_pdf`'s match list. -/
structure MatchRecord where
  page : Int
  text : String
  bbox : Rect
  matchType : String
deriving DecidableEq

/-- The result object of `search_text_in_pdf`. -/
structure SearchResult where
  searchString : String
  totalMatches : Nat
  matchList : List MatchRecord
deriving DecidableEq

/-- The match records one page contributes in `search_text_in_pdf`
(the body of its per-page loop, from server.py lines 155–187). -/
def searchMatchesOnPage (page : Page) (pageNum : Int) (searchString : String)
    (caseSensitive useRegex : Bool) : List MatchRecord :=
  if useRegex then
    (reFinditer searchString page.getText (!caseSensitive)).flatMap (fun g =>
      (page.searchFor g).map (fun r => ⟨pageNum, g, r, "regex"⟩))
  else
    -- flags is computed but never passed to search_for in the source
    let _flags : Nat := if caseSensitive then 0 else textPreserveWhitespace
    (page.searchFor searchString).map (fun r => ⟨pageNum, searchString, r, "exact"⟩)

/-- The page loop of `search_text_in_pdf`: accumulate matches page by page,
the first failing page lookup ends the call with that error. -/
def searchPagesLoop (doc : Document) (searchString : String)
    (caseSensitive useRegex : Bool) : List Int → Except String (List MatchRecord)
  | [] => .ok []
  | pn :: rest =>
    match docGet doc pn with
    | .error e => .error e
    | .ok page =>
      match searchPagesLoop doc searchString caseSensitive useRegex rest with
      | .error e => .error e
      | .ok more => .ok (searchMatchesOnPage page pn searchString caseSensitive useRegex ++ more)

/-- `search_text_in_pdf` (server.py lines 129–200): search one page if
`pageNumber` is given, else every page in index order. -/
def searchTextInPdf (doc : Document) (searchString : String)
    (caseSensitive useRegex : Bool) (pageNumber : Option Int) :
    Except String SearchResult :=
  let pagesToSearch : List Int :=
    match pageNumber with
    | some n => [n]
    | none => (List.range doc.length).map (fun k : Nat => (k : Int))
  match searchPagesLoop doc searchString caseSensitive useRegex pagesToSearch with
  | .error e => .error e
  | .ok ms => .ok ⟨searchString, ms.length, ms⟩

/-- Python's `str.split()` word list: split on whitespace, dropping empty
pieces; `acc` holds the reversed current word. -/
def wordsAux : List Char → List Char → List (List Char)
  | acc, [] => if acc.isEmpty then [] else [acc.reverse]
  | acc, c :: rest =>
    if c.isWhitespace then
      if acc.isEmpty then wordsAux [] rest else acc.reverse :: wordsAux [] rest
    else wordsAux (c :: acc) rest

/-- `len(text.split())` of Python: the whitespace-separated word count. -/
def pyWordCount (s : String) : Nat := (wordsAux [] s.data).length

/-- One entry of the structured ("json") extraction output. -/
structure PageJson where
  pageNumber : Int
  text : String
  wordCount : Nat
deriving DecidableEq

/-- One entry of the block-level ("blocks") extraction output. -/
structure PageBlocks where
  pageNumber : Int
  blocks : List Span
deriving DecidableEq

/-- The non-error payloads of `extract_text_from_pdf`, one per format. -/
inductive ExtractOutput where
  | jsonOut (totalPages : Nat) (pages : List PageJson)
  | blocksOut (totalPages : Nat) (pages : List PageBlocks)
  | textOut (text : String)
deriving DecidableEq

/-- The "json" page loop of `extract_text_from_pdf`. -/
def extractJsonPages (doc : Document) : List Int → Except String (List PageJson)
  | [] => .ok []
  | pn :: rest =>
    match docGet doc pn with
    | .error e => .error e
    | .ok p =>
      match extractJsonPages doc rest with
      | .error e => .error e
      | .ok more => .ok (⟨pn, p.getText, pyWordCount p.getText⟩ :: more)

/-- The "blocks" page loop of `extract_text_from_pdf`. -/
def extractBlocksPages (doc : Document) : List Int → Except String (List PageBlocks)
  | [] => .ok []
  | pn :: rest =>
    match docGet doc pn with
    | .error e => .error e
    | .ok p =>
      match extractBlocksPages doc rest with
      | .error e => .error e
      | .ok more => .ok (⟨pn, p.getBlocks⟩ :: more)

/-- The page header of plain-text extraction:
"=== Page {n+1} ===\n{text}\n". -/
def pageHeader (pn : Int) (text : String) : String :=
  "=== Page " ++ toString (pn + 1) ++ " ===\n" ++ text ++ "\n"

/-- The plain-text page loop of `extract_text_from_pdf`. -/
def extractTextPages (doc : Document) : List Int → Except String (List String)
  | [] => .ok []
  | pn :: rest =>
    match docGet doc pn with
    | .error e => .error e
    | .ok p =>
      match extractTextPages doc rest with
      | .error e => .error e
      | .ok more => .ok (pageHeader pn p.getText :: more)

/-- The format dispatch of `extract_text_from_pdf` over an already-selected
page list. -/
def extractGo (doc : Document) (pages : List Int) (format : String) :
    Except String ExtractOutput :=
  if format = "json" then
    (extractJsonPages doc pages).map (fun l => .jsonOut doc.length l)
  else if format = "blocks" then
    (extractBlocksPages doc pages).map (fun l => .blocksOut doc.length l)
  else
    (extractTextPages doc pages).map (fun l => .textOut (String.intercalate "\n" l))

/-- `extract_text_from_pdf` (server.py lines 53–125): validates an explicit
page number against `[0, pageCount)` before any extraction; with none given
it processes every page in index order. -/
def extractTextFromPdf (doc : Document) (pageNumber : Option Int)
    (format : String) : Except String ExtractOutput :=
  match pageNumber with
  | some n =>
    if n < 0 ∨ (doc.length : Int) ≤ n then
      .error ("Invalid page number. PDF has " ++ toString doc.length ++ " pages")
    else extractGo doc [n] format
  | none => extractGo doc ((List.range doc.length).map (fun k : Nat => (k : Int))) format

/-- One entry of `redact_text_by_search`'s per-page summary. -/
structure PageRedaction where
  page : Nat
  redactions : Nat
deriving DecidableEq

/-- The result object of `redact_text_by_search`: the counts, the summary
and the saved output document. -/
structure RedactBySearchResult where
  totalRedactions : Nat
  pagesModified : Nat
  summary : List PageRedaction
  doc : Document
deriving DecidableEq

/-- The per-page body of `redact_text_by_search` (server.py lines 238–251):
for each pattern in order, stage one redaction mark per occurrence, counting
the marks. -/
def redactPageBySearch (page : Page) (searchStrings : List String)
    (fillColor : Color) (overlayText : String) (textColor : Color) : Page × Nat :=
  searchStrings.foldl
    (fun acc s =>
      (acc.1.searchFor s).foldl
        (fun acc2 r =>
          (acc2.1.addRedactAnnot r overlayText fillColor (some textColor), acc2.2 + 1))
        acc)
    (page, 0)

/-- The page loop of `redact_text_by_search` over the indexed page list:
stage every pattern's occurrences on the page, then — only when at least one
mark was staged — commit that page's marks in one batch and record the page
in the summary. Returns (output pages, total marks, summary). -/
def redactSearchLoop (searchStrings : List String) (fillColor : Color)
    (overlayText : String) (textColor : Color) :
    List (Nat × Page) → Document × Nat × List PageRedaction
  | [] => ([], 0, [])
  | pr :: rest =>
    let res := redactPageBySearch pr.2 searchStrings fillColor overlayText textColor
    let st := redactSearchLoop searchStrings fillColor overlayText textColor rest
    if 0 < res.2 then
      (res.1.applyRedactions false :: st.1, res.2 + st.2.1, ⟨pr.1, res.2⟩ :: st.2.2)
    else
      (res.1 :: st.1, res.2 + st.2.1, st.2.2)

/-- `redact_text_by_search` (server.py lines 204–277). `caseSensitive` is
accepted and, as in the source, never consulted. -/
def redactTextBySearch (doc : Document) (searchStrings : List String)
    (caseSensitive : Bool) (fillColor : Color) (overlayText : String)
    (textColor : Color) : RedactBySearchResult :=
  let _cs := caseSensitive
  let st := redactSearchLoop searchStrings fillColor overlayText textColor doc.enum
  ⟨st.2.1, st.2.2.length, st.2.2, st.1⟩

/-- One coordinate-redaction directive: the dictionary keys `page`, `bbox`
and `text` of `redact_by_coordinates`, each possibly absent. -/
structure Directive where
  page : Option Int
  bbox : Option (List ℚ)
  text : Option String
deriving DecidableEq

/-- One per-item entry of `redact_by_coordinates`' result list. -/
inductive AppliedRedaction where
  | errorEntry (message : String)
  | applied (page : Int) (bbox : List ℚ)
deriving DecidableEq

/-- Whether an entry reports status "error". -/
def AppliedRedaction.isErrorEntry : AppliedRedaction → Bool
  | .errorEntry _ => true
  | .applied _ _ => false

/-- Python's `not bbox or len(bbox) != 4` over the optional bbox value. -/
def bboxBad : Option (List ℚ) → Bool
  | none => true
  | some l => l.isEmpty || decide (l.length ≠ 4)

/-- `pymupdf.Rect(bbox)` on a validated four-component box. -/
def rectOfList : List ℚ → Rect
  | [a, b, c, d] => ⟨a, b, c, d⟩
  | _ => ⟨0, 0, 0, 0⟩

/-- Whether a directive fails `redact_by_coordinates`' validation against a
document of `n` pages: page index outside [0, n) (an absent page key
defaults to 0), or a missing or non-four-component bbox. -/
def directiveInvalid (n : Nat) (d : Directive) : Bool :=
  let pageNum := d.page.getD 0
  decide (pageNum < 0) || decide ((n : Int) ≤ pageNum) || bboxBad d.bbox

/-- The directive loop of `redact_by_coordinates` (server.py lines 309–341):
each directive is validated; an invalid one is recorded as a per-item error
and processing continues; a valid one stages a mark on its page. No commit
happens here. Returns (document with staged marks, per-item entries). -/
def redactCoordsLoop (fillColor : Color) (overlayText : String)
    (doc : Document) : List Directive → Document × List AppliedRedaction
  | [] => (doc, [])
  | d :: rest =>
    let pageNum := d.page.getD 0
    let redactText := d.text.getD overlayText
    if pageNum < 0 ∨ (doc.length : Int) ≤ pageNum then
      let st := redactCoordsLoop fillColor overlayText doc rest
      (st.1, .errorEntry ("Invalid page number " ++ toString pageNum) :: st.2)
    else if bboxBad d.bbox then
      let st := redactCoordsLoop fillColor overlayText doc rest
      (st.1, .errorEntry "Invalid bbox format. Expected [x0, y0, x1, y1]" :: st.2)
    else
      let bbox := d.bbox.getD []
      let doc' := updatePageAt doc pageNum.toNat
        (fun p => p.addRedactAnnot (rectOfList bbox) redactText fillColor none)
      let st := redactCoordsLoop fillColor overlayText doc' rest
      (st.1, .applied pageNum bbox :: st.2)

/-- The result object of `redact_by_coordinates`. -/
structure RedactByCoordsResult where
  totalRedactions : Nat
  redactions : List AppliedRedaction
  doc : Document
deriving DecidableEq

/-- `redact_by_coordinates` (server.py lines 280–360): process every
directive (staging only), then commit every page of the document in one
final pass, then save. -/
def redactByCoordinates (doc : Document) (directives : List Directive)
    (fillColor : Color) (overlayText : String) : RedactByCoordsResult :=
  let st := redactCoordsLoop fillColor overlayText doc directives
  let finalDoc := st.1.map (fun p => p.applyRedactions false)
  ⟨(st.2.filter (fun r => !r.isErrorEntry)).length, st.2, finalDoc⟩

/-- One entry of `redact_images_in_pdf`'s per-page summary. -/
structure ImgSummary where
  page : Int
  imagesRedacted : Nat
deriving DecidableEq

/-- The result object of `redact_images_in_pdf`. -/
structure RedactImagesResult where
  totalImagesRedacted : Nat
  pagesProcessed : Nat
  summary : List ImgSummary
  doc : Document
deriving DecidableEq

/-- The image loop of `redact_images_in_pdf` on one page (server.py lines
400–415): enumerate the page's images, skip one whose bounding box is the
infinite rectangle, stage a mark over each of the others, counting them. -/
def stageImagesOnPage (p : Page) (fillColor : Color) (overlayText : String) :
    Page × Nat :=
  p.images.foldl
    (fun acc img =>
      if img.bbox.isInfinite then acc
      else (acc.1.addRedactAnnot img.bbox overlayText fillColor (some (1, 1, 1)), acc.2 + 1))
    (p, 0)

/-- One iteration of `redact_images_in_pdf`'s page loop: an out-of-range
page number is skipped silently; otherwise the page's images are staged and,
when at least one mark was staged, the page is committed with the
image-removal policy and recorded in the summary. -/
def redactImagesStep (fillColor : Color) (overlayText : String)
    (st : Document × Nat × List ImgSummary) (pn : Int) :
    Document × Nat × List ImgSummary :=
  if pn < 0 ∨ (st.1.length : Int) ≤ pn then st
  else
    let staged := stageImagesOnPage (pageAtN st.1 pn.toNat) fillColor overlayText
    let p' := if 0 < staged.2 then staged.1.applyRedactions true else staged.1
    (st.1.set pn.toNat p', st.2.1 + staged.2,
      st.2.2 ++ (if 0 < staged.2 then [⟨pn, staged.2⟩] else []))

/-- The page selection of `redact_images_in_pdf`: the given list, or every
page index when no selection is given. -/
def imgPagesToProcess (doc : Document) (pageNumbers : Option (List Int)) : List Int :=
  match pageNumbers with
  | some l => l
  | none => (List.range doc.length).map (fun k : Nat => (k : Int))

/-- `redact_images_in_pdf` (server.py lines 363–439): process the selected
pages (all pages when no selection is given) in the order given. -/
def redactImagesInPdf (doc : Document) (pageNumbers : Option (List Int))
    (fillColor : Color) (overlayText : String) : RedactImagesResult :=
  let st := (imgPagesToProcess doc pageNumbers).foldl
    (redactImagesStep fillColor overlayText) (doc, 0, [])
  ⟨st.2.1, st.2.2.length, st.2.2, st.1⟩

/-- One per-pattern entry of `verify_redactions`' string checks. -/
structure StringCheck where
  searchString : String
  foundInRedacted : Bool
  pagesFound : List Nat
  status : String
deriving DecidableEq

/-- One per-page entry of `verify_redactions`' text comparison. -/
structure TextComparison where
  page : Nat
  originalWordCount : Nat
  redactedWordCount : Nat
  wordsRemoved : Int
  textModified : Bool
deriving DecidableEq

/-- The result object of `verify_redactions`. -/
structure Verification where
  originalPages : Nat
  redactedPages : Nat
  pagesMatch : Bool
  stringChecks : List StringCheck
  textComparison : List TextComparison
  overallStatus : String
deriving DecidableEq

/-- The per-pattern check of `verify_redactions` (server.py lines 475–491):
the pattern is located in the candidate document only; its status is "FAIL"
exactly when some page of the candidate still locates it. -/
def stringCheckFor (redactDoc : Document) (s : String) : StringCheck :=
  let pagesFound :=
    ((List.range redactDoc.length).filter
      (fun pn => !((pageAtN redactDoc pn).searchFor s).isEmpty))
  let found := !pagesFound.isEmpty
  ⟨s, found, pagesFound, if found then "FAIL" else "PASS"⟩

/-- The per-page text comparison of `verify_redactions` (server.py lines
494–507), over the overlapping page range. -/
def textComparisonFor (origDoc redactDoc : Document) : List TextComparison :=
  (List.range (min origDoc.length redactDoc.length)).map (fun pn =>
    let origText := (pageAtN origDoc pn).getText
    let redactText := (pageAtN redactDoc pn).getText
    ⟨pn, pyWordCount origText, pyWordCount redactText,
      (pyWordCount origText : Int) - (pyWordCount redactText : Int),
      decide (origText ≠ redactText)⟩)

/-- `verify_redactions` (server.py lines 442–527): page counts compared,
per-pattern string checks on the candidate only (none when the pattern list
is absent or empty), an informational per-page text comparison, and an
overall verdict that is "PASS" exactly when every string check passed. -/
def verifyRedactions (origDoc redactDoc : Document)
    (searchStrings : Option (List String)) : Verification :=
  let checks :=
    match searchStrings with
    | none => []
    | some ss => ss.map (stringCheckFor redactDoc)
  let allChecksPassed := checks.all (fun c => c.status == "PASS")
  ⟨origDoc.length, redactDoc.length, decide (origDoc.length = redactDoc.length),
    checks, textComparisonFor origDoc redactDoc,
    if allChecksPassed then "PASS" else "FAIL"⟩

/-- Modelled from the spec: the session-store error taxonomy; `notFound`
carries the set of live identifiers, "to aid the caller". The session store
itself is described by the spec (§4.1) but has no code in the repository's
files. -/
inductive SessionError where
  | notFound (identifier : String) (live : List String)
deriving DecidableEq

/-- Modelled from the spec: the session store, "a process-wide mapping from
a caller-chosen identifier to an open document handle", in insertion
order. -/
abbrev SessionStore := List (String × Document)

/-- The live identifiers of the store. -/
def liveIds (st : SessionStore) : List String := st.map Prod.fst

/-- The store without the entry of one identifier. -/
def storeRemove (st : SessionStore) (identifier : String) : SessionStore :=
  st.filter (fun e => e.1 ≠ identifier)

/-- Modelled from the spec: `load` opens a document under an identifier; a
session already holding that identifier is released first and replaced
("last write wins"). -/
def storeLoad (st : SessionStore) (identifier : String) (doc : Document) :
    SessionStore :=
  storeRemove st identifier ++ [(identifier, doc)]

/-- Modelled from the spec: `get` resolves an identifier to its handle and
fails with `NotFoundError` (carrying the live identifiers) when absent. -/
def storeGet (st : SessionStore) (identifier : String) :
    Except SessionError Document :=
  match st.find? (fun e => e.1 = identifier) with
  | some e => .ok e.2
  | none => .error (.notFound identifier (liveIds st))

/-- Modelled from the spec: `close` releases the handle and removes the
entry, failing with `NotFoundError` when the identifier is absent. -/
def storeClose (st : SessionStore) (identifier : String) :
    Except SessionError SessionStore :=
  match st.find? (fun e => e.1 = identifier) with
  | some _ => .ok (storeRemove st identifier)
  | none => .error (.notFound identifier (liveIds st))

/-- Modelled from the spec: `save` serializes the session's document; it
addresses the store through `get` and fails the same way when the
identifier is absent. -/
def storeSave (st : SessionStore) (identifier : String) :
    Except SessionError Document :=
  storeGet st identifier

/-- The marks the search loop stages on one page: for each pattern in order,
one mark per located occurrence. -/
def stagedMarks (p : Page) (ss : List String) (fill : Color) (ov : String)
    (tc : Color) : List Mark :=
  ss.flatMap (fun s => (p.searchFor s).map (fun r => ⟨r, ov, fill, some tc⟩))

/-- The number of marks the search loop stages on one page: one per
occurrence per pattern, so a pattern listed twice is counted twice. -/
def markCount (p : Page) (ss : List String) : Nat :=
  (ss.map (fun s => (p.searchFor s).length)).sum

/-- The images of a page that the image loop does not skip: exactly those
whose bounding box is not the infinite rectangle. -/
def pageImgCount (p : Page) : Nat :=
  (p.images.filter (fun im => !im.bbox.isInfinite)).length

/-- The page with one mark staged over each non-skipped image, in image
order. -/
def stagedImgPage (p : Page) (fill : Color) (ov : String) : Page :=
  { p with marks := (p.marks ++ (p.images.filter (fun im => !im.bbox.isInfinite)).map
      (fun im => ⟨im.bbox, ov, fill, some (1, 1, 1)⟩)) }

/-- One page of the image-redaction pass: stage over every non-skipped
image, and commit with the image-removal policy exactly when at least one
mark was staged. -/
def processImgPage (p : Page) (fill : Color) (ov : String) : Page :=
  if 0 < pageImgCount p then (stagedImgPage p fill ov).applyRedactions true
  else stagedImgPage p fill ov

/-- Whether a page index passes the image loop's range check. -/
def validPage (n : Nat) (pn : Int) : Bool :=
  decide (0 ≤ pn) && decide (pn < (n : Int))

/-! ## Basic lemmas about the engine model -/

@[simp] lemma addRedactAnnot_spans (p : Page) (r : Rect) (t : String) (f : Color)
    (tc : Option Color) : (p.addRedactAnnot r t f tc).spans = p.spans := rfl

@[simp] lemma addRedactAnnot_images (p : Page) (r : Rect) (t : String) (f : Color)
    (tc : Option Color) : (p.addRedactAnnot r t f tc).images = p.images := rfl

@[simp] lemma addRedactAnnot_marks (p : Page) (r : Rect) (t : String) (f : Color)
    (tc : Option Color) :
    (p.addRedactAnnot r t f tc).marks = p.marks ++ [⟨r, t, f, tc⟩] := rfl

/-- The literal-text locator reads only the span list. -/
lemma searchFor_eq_of_spans {p q : Page} (h : p.spans = q.spans) (s : String) :
    p.searchFor s = q.searchFor s := by
  simp [Page.searchFor, h]

@[simp] lemma searchFor_withMarks (p : Page) (m : List Mark) (s : String) :
    Page.searchFor { p with marks := m } s = p.searchFor s := rfl

lemma getText_eq_of_spans {p q : Page} (h : p.spans = q.spans) :
    p.getText = q.getText := by
  simp [Page.getText, h]

/-- A proper rectangle meets itself. -/
lemma intersects_self_of_proper {r : Rect} (h : r.proper = true) :
    r.intersects r = true := by
  simp only [Rect.proper, Bool.and_eq_true, decide_eq_true_eq] at h
  simp [Rect.intersects, h.1, h.2]

@[simp] lemma updatePageAt_length (doc : Document) (i : Nat) (f : Page → Page) :
    (updatePageAt doc i f).length = doc.length := by
  induction doc generalizing i with
  | nil => rfl
  | cons p rest ih =>
    cases i with
    | zero => rfl
    | succ j => simp [updatePageAt, ih]

lemma updatePageAt_map {β : Type} (g : Page → β) (f : Page → Page)
    (h : ∀ p, g (f p) = g p) (doc : Document) (i : Nat) :
    (updatePageAt doc i f).map g = doc.map g := by
  induction doc generalizing i with
  | nil => rfl
  | cons p rest ih =>
    cases i with
    | zero => simp [updatePageAt, h]
    | succ j => simp [updatePageAt, ih]

@[simp] lemma pageAtN_cons_zero (p : Page) (rest : Document) :
    pageAtN (p :: rest) 0 = p := by
  simp [pageAtN]

@[simp] lemma pageAtN_cons_succ (p : Page) (rest : Document) (i : Nat) :
    pageAtN (p :: rest) (i + 1) = pageAtN rest i := by
  simp [pageAtN]

/-- Checking a page property over the index range equals checking it over
the page list itself. -/
lemma range_all_eq_all (l : List Page) (f : Page → Bool) :
    ((List.range l.length).all (fun i => f (pageAtN l i))) = l.all f := by
  induction l with
  | nil => rfl
  | cons p rest ih =>
    rw [List.length_cons, List.range_succ_eq_map]
    simp only [List.all_cons, List.all_map, Function.comp_def, pageAtN_cons_zero,
      pageAtN_cons_succ, ih]

/-- In-range lookups through `docGet` succeed and agree with `pageAtN`. -/
lemma docGet_in_range (doc : Document) (pn : Int) (h0 : 0 ≤ pn)
    (h1 : pn < (doc.length : Int)) : docGet doc pn = .ok (pageAtN doc pn.toNat) := by
  have hlt : pn.toNat < doc.length := by omega
  have : doc[pn.toNat]? = some doc[pn.toNat] := List.getElem?_eq_getElem hlt
  simp [docGet, pageAtN, this, h0, Int.not_lt.mpr h0]

/-! ## C9: verification of a document against itself -/

/-- C9. For every document `doc`, `verify_redactions(doc, doc)` with no
patterns reports matching page counts, an all-clean text comparison (no page
flagged modified, zero words removed on every page) and the overall verdict
PASS. -/
theorem verify_self_clean (doc : Document) :
    (verifyRedactions doc doc none).pagesMatch = true
    ∧ ((verifyRedactions doc doc none).textComparison.all
        (fun tc => !tc.textModified && tc.wordsRemoved == 0)) = true
    ∧ (verifyRedactions doc doc none).overallStatus = "PASS" := by
  refine ⟨by simp [verifyRedactions], ?_, by simp [verifyRedactions]⟩
  simp only [verifyRedactions, textComparisonFor, Nat.min_self, List.all_eq_true,
    List.mem_map, List.mem_range]
  rintro tc ⟨pn, _, rfl⟩
  simp

/-! ## C10: the case-sensitivity flag is dead in literal search -/

lemma searchMatchesOnPage_cs_irrelevant (page : Page) (pn : Int) (s : String)
    (cs cs' : Bool) :
    searchMatchesOnPage page pn s cs false = searchMatchesOnPage page pn s cs' false := by
  simp [searchMatchesOnPage]

lemma searchPagesLoop_cs_irrelevant (doc : Document) (s : String) (cs cs' : Bool)
    (l : List Int) :
    searchPagesLoop doc s cs false l = searchPagesLoop doc s cs' false l := by
  induction l with
  | nil => rfl
  | cons pn rest ih =>
    unfold searchPagesLoop
    rw [ih]
    cases docGet doc pn with
    | error e => rfl
    | ok page =>
      cases searchPagesLoop doc s cs' false rest with
      | error e => rfl
      | ok more => simp only [searchMatchesOnPage_cs_irrelevant page pn s cs cs']

/-- C10. With `use_regex = false`, `search_text_in_pdf` returns the same
result whether `case_sensitive` is true or false: the computed flag value is
never forwarded to the engine's literal-text locator. -/
theorem search_case_sensitive_flag_dead (doc : Document) (s : String)
    (pg : Option Int) :
    searchTextInPdf doc s true false pg = searchTextInPdf doc s false false pg := by
  simp [searchTextInPdf, searchPagesLoop_cs_irrelevant doc s true false]

/-! ## C6: the session store (modelled from the spec) -/

lemma mem_storeRemove_ne {st : SessionStore} {identifier : String}
    {e : String × Document} (he : e ∈ storeRemove st identifier) :
    e.1 ≠ identifier := by
  have := List.of_mem_filter he
  simpa using this

lemma find?_of_all_ne {l : SessionStore} {x : String}
    (h : ∀ e ∈ l, e.1 ≠ x) : l.find? (fun e => e.1 = x) = none := by
  apply List.find?_eq_none.mpr
  intro e he
  simpa using h e he

lemma find?_storeRemove (st : SessionStore) (identifier : String) :
    (storeRemove st identifier).find? (fun e => e.1 = identifier) = none :=
  find?_of_all_ne (fun _ he => mem_storeRemove_ne he)

lemma find?_storeLoad (st : SessionStore) (identifier : String) (doc : Document) :
    (storeLoad st identifier doc).find? (fun e => e.1 = identifier)
      = some (identifier, doc) := by
  unfold storeLoad
  rw [List.find?_append, find?_storeRemove]
  simp

lemma not_mem_liveIds_storeRemove (st : SessionStore) (identifier : String) :
    identifier ∉ liveIds (storeRemove st identifier) := by
  simp only [liveIds, List.mem_map]
  rintro ⟨e, he, rfl⟩
  exact mem_storeRemove_ne he rfl

/-- C6. Loading a document under an identifier and then closing it removes
the identifier from the store; a subsequent `get`, `save` or `close`
addressed to that identifier fails with `NotFoundError` carrying the live
identifier set, and `close`/`get` on any absent identifier fails the same
way. -/
theorem session_load_close_not_found (st : SessionStore) (id d0 : String)
    (doc : Document) (st2 : SessionStore) :
    storeClose (storeLoad st id doc) id = .ok (storeRemove (storeLoad st id doc) id)
    ∧ id ∉ liveIds (storeRemove (storeLoad st id doc) id)
    ∧ storeGet (storeRemove (storeLoad st id doc) id) id
      = .error (.notFound id (liveIds (storeRemove (storeLoad st id doc) id)))
    ∧ storeSave (storeRemove (storeLoad st id doc) id) id
      = .error (.notFound id (liveIds (storeRemove (storeLoad st id doc) id)))
    ∧ storeClose (storeRemove (storeLoad st id doc) id) id
      = .error (.notFound id (liveIds (storeRemove (storeLoad st id doc) id)))
    ∧ (d0 ∉ liveIds st2 →
        storeClose st2 d0 = .error (.notFound d0 (liveIds st2))
        ∧ storeGet st2 d0 = .error (.notFound d0 (liveIds st2))) := by
  have hclosed := find?_storeRemove (storeLoad st id doc) id
  refine ⟨?_, not_mem_liveIds_storeRemove _ _, ?_, ?_, ?_, ?_⟩
  · rw [storeClose, find?_storeLoad]
  · rw [storeGet, hclosed]
  · rw [storeSave, storeGet, hclosed]
  · rw [storeClose, hclosed]
  · intro habs
    have hnone : st2.find? (fun e => e.1 = d0) = none := by
      apply find?_of_all_ne
      intro e he hne
      exact habs (by simpa only [liveIds, List.mem_map] using ⟨e, he, hne⟩)
    exact ⟨by rw [storeClose, hnone], by rw [storeGet, hnone]⟩

/-! ## C1: the verdict of verify_redactions -/

lemma filter_isEmpty_eq_all {α : Type} (l : List α) (p : α → Bool) :
    (l.filter p).isEmpty = l.all (fun a => !p a) := by
  induction l with
  | nil => rfl
  | cons a rest ih => cases h : p a <;> simp [List.filter_cons, h, ih]

lemma all_map' {α β : Type} (l : List α) (f : α → β) (p : β → Bool) :
    (l.map f).all p = l.all (fun a => p (f a)) := by
  induction l with
  | nil => rfl
  | cons a rest ih => simp [ih]

lemma all_congr' {α : Type} (l : List α) (f g : α → Bool)
    (h : ∀ a ∈ l, f a = g a) : l.all f = l.all g := by
  induction l with
  | nil => rfl
  | cons a rest ih =>
    simp only [List.all_cons, h a (List.mem_cons_self a rest),
      ih (fun b hb => h b (List.mem_cons_of_mem _ hb))]

/-- A per-pattern check passes exactly when no page of the candidate
document still locates the pattern. -/
lemma stringCheck_pass_eq (redactDoc : Document) (s : String) :
    ((stringCheckFor redactDoc s).status == "PASS")
      = redactDoc.all (fun p => (p.searchFor s).isEmpty) := by
  have key : ((List.range redactDoc.length).filter
        (fun pn => !((pageAtN redactDoc pn).searchFor s).isEmpty)).isEmpty
      = redactDoc.all (fun p => (p.searchFor s).isEmpty) := by
    rw [filter_isEmpty_eq_all]
    have h2 : ((List.range redactDoc.length).all
          (fun a => !!((pageAtN redactDoc a).searchFor s).isEmpty))
        = ((List.range redactDoc.length).all
          (fun a => ((pageAtN redactDoc a).searchFor s).isEmpty)) := by
      simp
    rw [h2]
    exact range_all_eq_all redactDoc (fun p => (p.searchFor s).isEmpty)
  simp only [stringCheckFor, key]
  cases h : redactDoc.all (fun p => (p.searchFor s).isEmpty) <;> simp [h]

lemma verify_stringChecks (origDoc redactDoc : Document) (ss : Option (List String)) :
    (verifyRedactions origDoc redactDoc ss).stringChecks
      = (ss.getD []).map (stringCheckFor redactDoc) := by
  cases ss <;> simp [verifyRedactions]

lemma verify_overallStatus (origDoc redactDoc : Document) (ss : Option (List String)) :
    (verifyRedactions origDoc redactDoc ss).overallStatus
      = if ((ss.getD []).map (stringCheckFor redactDoc)).all (fun c => c.status == "PASS")
        then "PASS" else "FAIL" := by
  cases ss <;> simp [verifyRedactions]

/-- C1. The overall verdict of `verify_redactions` is PASS exactly when
every per-pattern string check passes — equivalently, when no requested
pattern is locatable on any page of the candidate document. The verdict is
a function of the candidate and the patterns alone (the per-page text
comparison and the original document never influence it), and with an
absent or empty pattern list the verdict is PASS. -/
theorem verify_verdict_iff_checks_pass (orig redact : Document)
    (ss : Option (List String)) (orig2 : Document) :
    ((verifyRedactions orig redact ss).overallStatus = "PASS"
      ↔ ((verifyRedactions orig redact ss).stringChecks.all
          (fun c => c.status == "PASS")) = true)
    ∧ ((verifyRedactions orig redact ss).overallStatus = "PASS"
      ↔ ((ss.getD []).all
          (fun s => redact.all (fun p => (p.searchFor s).isEmpty))) = true)
    ∧ (verifyRedactions orig redact ss).overallStatus
      = (verifyRedactions orig2 redact ss).overallStatus
    ∧ (verifyRedactions orig redact none).overallStatus = "PASS"
    ∧ (verifyRedactions orig redact (some [])).overallStatus = "PASS" := by
  have h2 : ((ss.getD []).map (stringCheckFor redact)).all (fun c => c.status == "PASS")
      = ((ss.getD []).all (fun s => redact.all (fun p => (p.searchFor s).isEmpty))) := by
    rw [all_map']
    exact all_congr' _ _ _ (fun s _ => stringCheck_pass_eq redact s)
  refine ⟨?_, ?_, ?_, by simp [verifyRedactions], by simp [verifyRedactions]⟩
  · rw [verify_overallStatus, verify_stringChecks]
    cases h : ((ss.getD []).map (stringCheckFor redact)).all (fun c => c.status == "PASS") with
    | false => simp [h]
    | true => simp [h]
  · rw [verify_overallStatus, h2]
    cases h : ((ss.getD []).all (fun s => redact.all (fun p => (p.searchFor s).isEmpty))) with
    | false => simp [h]
    | true => simp [h]
  · rw [verify_overallStatus, verify_overallStatus]

/-! ## C7: page-number validation in text extraction -/

lemma extractJsonPages_in_range (doc : Document) (l : List Int)
    (h : ∀ pn ∈ l, 0 ≤ pn ∧ pn < (doc.length : Int)) :
    extractJsonPages doc l = .ok (l.map (fun pn =>
      ⟨pn, (pageAtN doc pn.toNat).getText, pyWordCount (pageAtN doc pn.toNat).getText⟩)) := by
  induction l with
  | nil => rfl
  | cons pn rest ih =>
    have h0 := h pn (List.mem_cons_self pn rest)
    have hrest := ih (fun q hq => h q (List.mem_cons_of_mem _ hq))
    simp only [extractJsonPages, docGet_in_range doc pn h0.1 h0.2, hrest, List.map_cons]

lemma extractBlocksPages_in_range (doc : Document) (l : List Int)
    (h : ∀ pn ∈ l, 0 ≤ pn ∧ pn < (doc.length : Int)) :
    extractBlocksPages doc l = .ok (l.map (fun pn =>
      ⟨pn, (pageAtN doc pn.toNat).getBlocks⟩)) := by
  induction l with
  | nil => rfl
  | cons pn rest ih =>
    have h0 := h pn (List.mem_cons_self pn rest)
    have hrest := ih (fun q hq => h q (List.mem_cons_of_mem _ hq))
    simp only [extractBlocksPages, docGet_in_range doc pn h0.1 h0.2, hrest, List.map_cons]

lemma extractTextPages_in_range (doc : Document) (l : List Int)
    (h : ∀ pn ∈ l, 0 ≤ pn ∧ pn < (doc.length : Int)) :
    extractTextPages doc l = .ok (l.map (fun pn =>
      pageHeader pn (pageAtN doc pn.toNat).getText)) := by
  induction l with
  | nil => rfl
  | cons pn rest ih =>
    have h0 := h pn (List.mem_cons_self pn rest)
    have hrest := ih (fun q hq => h q (List.mem_cons_of_mem _ hq))
    simp only [extractTextPages, docGet_in_range doc pn h0.1 h0.2, hrest, List.map_cons]

/-- C7. `extract_text_from_pdf` on an explicit out-of-range page number
returns the structured error naming the page count and extracts nothing,
whatever the format; on an in-range page number it processes exactly that
one page; with the page number omitted it processes every page in ascending
index order. -/
theorem extract_text_page_selection (doc : Document) (n : Int) (format : String) :
    ((n < 0 ∨ (doc.length : Int) ≤ n) →
      extractTextFromPdf doc (some n) format
        = .error ("Invalid page number. PDF has " ++ toString doc.length ++ " pages"))
    ∧ (0 ≤ n → n < (doc.length : Int) →
        extractTextFromPdf doc (some n) "json"
          = .ok (.jsonOut doc.length
              [⟨n, (pageAtN doc n.toNat).getText, pyWordCount (pageAtN doc n.toNat).getText⟩])
        ∧ extractTextFromPdf doc (some n) "blocks"
          = .ok (.blocksOut doc.length [⟨n, (pageAtN doc n.toNat).getBlocks⟩])
        ∧ (format ≠ "json" → format ≠ "blocks" →
            extractTextFromPdf doc (some n) format
              = .ok (.textOut (pageHeader n (pageAtN doc n.toNat).getText))))
    ∧ extractTextFromPdf doc none "json"
        = .ok (.jsonOut doc.length (((List.range doc.length).map (fun k : Nat => (k : Int))).map
            (fun pn => ⟨pn, (pageAtN doc pn.toNat).getText,
              pyWordCount (pageAtN doc pn.toNat).getText⟩))) := by
  have hrange : ∀ pn ∈ (List.range doc.length).map (fun k : Nat => (k : Int)),
      0 ≤ pn ∧ pn < (doc.length : Int) := by
    intro pn hpn
    simp only [List.mem_map, List.mem_range] at hpn
    obtain ⟨k, hk, rfl⟩ := hpn
    exact ⟨Int.natCast_nonneg k, by exact_mod_cast hk⟩
  refine ⟨?_, ?_, ?_⟩
  · intro h
    simp only [extractTextFromPdf, if_pos h]
  · intro h0 h1
    have hone : ∀ pn ∈ [n], 0 ≤ pn ∧ pn < (doc.length : Int) := by
      intro pn hpn
      simp only [List.mem_singleton] at hpn
      subst hpn
      exact ⟨h0, h1⟩
    have hnot : ¬(n < 0 ∨ (doc.length : Int) ≤ n) := by omega
    refine ⟨?_, ?_, ?_⟩
    · simp only [extractTextFromPdf, if_neg hnot, extractGo, if_pos rfl,
        extractJsonPages_in_range doc [n] hone, List.map_cons, List.map_nil]
      rfl
    · have hjb : ("blocks" = "json") = False := by simp
      simp only [extractTextFromPdf, if_neg hnot, extractGo, hjb, if_false, if_pos rfl,
        extractBlocksPages_in_range doc [n] hone, List.map_cons, List.map_nil]
      rfl
    · intro hf1 hf2
      simp only [extractTextFromPdf, if_neg hnot, extractGo, if_neg hf1, if_neg hf2,
        extractTextPages_in_range doc [n] hone, List.map_cons, List.map_nil]
      rfl
  · rw [show extractTextFromPdf doc none "json"
        = extractGo doc ((List.range doc.length).map (fun k : Nat => (k : Int))) "json" from rfl]
    rw [extractGo, if_pos rfl, extractJsonPages_in_range doc _ hrange]
    rfl

/-! ## C4 and C5: coordinate-based redaction -/

lemma redactCoordsLoop_length (fill : Color) (ov : String) (ds : List Directive)
    (doc : Document) : (redactCoordsLoop fill ov doc ds).1.length = doc.length := by
  induction ds generalizing doc with
  | nil => rfl
  | cons d rest ih =>
    by_cases h1 : (d.page.getD 0) < 0 ∨ (doc.length : Int) ≤ d.page.getD 0
    · simp only [redactCoordsLoop, if_pos h1]
      exact ih doc
    · by_cases h2 : bboxBad d.bbox
      · simp only [redactCoordsLoop, if_neg h1, if_pos h2]
        exact ih doc
      · simp only [redactCoordsLoop, if_neg h1, if_neg h2]
        rw [ih, updatePageAt_length]

lemma redactCoordsLoop_map {β : Type} (g : Page → β)
    (hg : ∀ (p : Page) (r : Rect) (t : String) (f : Color) (tc : Option Color),
      g (p.addRedactAnnot r t f tc) = g p)
    (fill : Color) (ov : String) (ds : List Directive) (doc : Document) :
    (redactCoordsLoop fill ov doc ds).1.map g = doc.map g := by
  induction ds generalizing doc with
  | nil => rfl
  | cons d rest ih =>
    by_cases h1 : (d.page.getD 0) < 0 ∨ (doc.length : Int) ≤ d.page.getD 0
    · simp only [redactCoordsLoop, if_pos h1]
      exact ih doc
    · by_cases h2 : bboxBad d.bbox
      · simp only [redactCoordsLoop, if_neg h1, if_pos h2]
        exact ih doc
      · simp only [redactCoordsLoop, if_neg h1, if_neg h2]
        rw [ih, updatePageAt_map g _ (fun p => hg p _ _ _ _)]

lemma redactCoordsLoop_entries (fill : Color) (ov : String) (ds : List Directive)
    (doc : Document) :
    (redactCoordsLoop fill ov doc ds).2.map AppliedRedaction.isErrorEntry
      = ds.map (fun d => directiveInvalid doc.length d) := by
  induction ds generalizing doc with
  | nil => rfl
  | cons d rest ih =>
    by_cases h1 : (d.page.getD 0) < 0 ∨ (doc.length : Int) ≤ d.page.getD 0
    · have hinv : directiveInvalid doc.length d = true := by
        simp only [directiveInvalid, Bool.or_eq_true, decide_eq_true_eq]
        rcases h1 with h | h
        · exact Or.inl (Or.inl h)
        · exact Or.inl (Or.inr h)
      simp only [redactCoordsLoop, if_pos h1, List.map_cons, ih doc, hinv,
        AppliedRedaction.isErrorEntry]
    · by_cases h2 : bboxBad d.bbox
      · have hinv : directiveInvalid doc.length d = true := by
          simp only [directiveInvalid, Bool.or_eq_true]
          exact Or.inr h2
        simp only [redactCoordsLoop, if_neg h1, if_pos h2, List.map_cons, ih doc, hinv,
          AppliedRedaction.isErrorEntry]
      · have hinv : directiveInvalid doc.length d = false := by
          simp only [directiveInvalid, Bool.or_eq_false_iff, decide_eq_false_iff_not]
          exact ⟨⟨fun h => h1 (Or.inl h), fun h => h1 (Or.inr h)⟩, by simpa using h2⟩
        simp only [redactCoordsLoop, if_neg h1, if_neg h2, List.map_cons, hinv,
          AppliedRedaction.isErrorEntry]
        rw [ih, updatePageAt_length]

lemma length_filter_not_of_map_eq {α β : Type} (f : α → Bool) (g : β → Bool) :
    ∀ (l1 : List α) (l2 : List β), l1.map f = l2.map g →
      (l1.filter (fun a => !f a)).length = (l2.filter (fun b => !g b)).length := by
  intro l1
  induction l1 with
  | nil =>
    intro l2 h
    cases l2 with
    | nil => rfl
    | cons b r2 => simp at h
  | cons a r ih =>
    intro l2 h
    cases l2 with
    | nil => simp at h
    | cons b r2 =>
      simp only [List.map_cons, List.cons.injEq] at h
      obtain ⟨hfg, hrest⟩ := h
      rw [List.filter_cons, List.filter_cons, ← hfg]
      cases hf : f a <;> simp [hf, ih r2 hrest]

/-- C4. Every directive of `redact_by_coordinates` yields exactly one
per-item entry; the entry reports an error exactly when the directive is
invalid (page index outside [0, pageCount), or a missing or
non-four-component bounding box), invalid directives never abort the batch,
and `total_redactions` counts exactly the valid (applied) directives — in
particular a batch of one out-of-range directive yields one error entry and
zero applied redactions. -/
theorem redact_coords_partial_failure (doc : Document) (ds : List Directive)
    (fill : Color) (ov : String) :
    (redactByCoordinates doc ds fill ov).redactions.map AppliedRedaction.isErrorEntry
      = ds.map (fun d => directiveInvalid doc.length d)
    ∧ (redactByCoordinates doc ds fill ov).redactions.length = ds.length
    ∧ (redactByCoordinates doc ds fill ov).totalRedactions
      = (ds.filter (fun d => !directiveInvalid doc.length d)).length
    ∧ (∀ d0 : Directive, directiveInvalid doc.length d0 = true →
        (redactByCoordinates doc [d0] fill ov).totalRedactions = 0
        ∧ (redactByCoordinates doc [d0] fill ov).redactions.map
            AppliedRedaction.isErrorEntry = [true]) := by
  have hmap : ∀ ds' : List Directive,
      (redactByCoordinates doc ds' fill ov).redactions.map AppliedRedaction.isErrorEntry
        = ds'.map (fun d => directiveInvalid doc.length d) := by
    intro ds'
    simpa [redactByCoordinates] using redactCoordsLoop_entries fill ov ds' doc
  have htot : ∀ ds' : List Directive,
      (redactByCoordinates doc ds' fill ov).totalRedactions
        = (ds'.filter (fun d => !directiveInvalid doc.length d)).length := by
    intro ds'
    have := length_filter_not_of_map_eq AppliedRedaction.isErrorEntry
      (fun d => directiveInvalid doc.length d) _ _ (hmap ds')
    simpa [redactByCoordinates] using this
  refine ⟨hmap ds, ?_, htot ds, ?_⟩
  · have := congrArg List.length (hmap ds)
    simpa using this
  · intro d0 h0
    refine ⟨?_, ?_⟩
    · rw [htot [d0]]
      simp [List.filter_cons, h0]
    · rw [hmap [d0]]
      simp [h0]

/-- C5. `redact_by_coordinates` stages marks while processing the directive
list without committing anything (no span or image of any page is touched
during the directive loop), and only after every directive is processed does
it run a single commit pass applying `apply_redactions` to every page of the
document, marked or not. -/
theorem redact_coords_single_final_commit (doc : Document) (ds : List Directive)
    (fill : Color) (ov : String) :
    (redactCoordsLoop fill ov doc ds).1.length = doc.length
    ∧ (redactCoordsLoop fill ov doc ds).1.map Page.spans = doc.map Page.spans
    ∧ (redactCoordsLoop fill ov doc ds).1.map Page.images = doc.map Page.images
    ∧ (redactByCoordinates doc ds fill ov).doc
      = (redactCoordsLoop fill ov doc ds).1.map (fun p => p.applyRedactions false) := by
  refine ⟨redactCoordsLoop_length fill ov ds doc, ?_, ?_, rfl⟩
  · exact redactCoordsLoop_map Page.spans (fun p r t f tc => rfl) fill ov ds doc
  · exact redactCoordsLoop_map Page.images (fun p r t f tc => rfl) fill ov ds doc

/-! ## C3 and C2: search-based redaction -/

lemma stage_foldl (fill : Color) (ov : String) (tc : Color) (rects : List Rect) :
    ∀ (q : Page) (n : Nat),
      rects.foldl (fun acc2 r =>
          (acc2.1.addRedactAnnot r ov fill (some tc), acc2.2 + 1)) (q, n)
        = ({ q with marks := q.marks ++ rects.map (fun r => ⟨r, ov, fill, some tc⟩) },
           n + rects.length) := by
  induction rects with
  | nil => intro q n; simp
  | cons r rs ih =>
    intro q n
    rw [List.foldl_cons, ih]
    simp only [Prod.mk.injEq, Page.addRedactAnnot, List.map_cons, List.length_cons]
    constructor
    · simp [List.append_assoc]
    · omega

lemma searchStage_loop (p : Page) (fill : Color) (ov : String) (tc : Color)
    (ss : List String) :
    ∀ (q : Page), q.spans = p.spans → ∀ n : Nat,
      ss.foldl (fun acc s =>
          (acc.1.searchFor s).foldl (fun acc2 r =>
            (acc2.1.addRedactAnnot r ov fill (some tc), acc2.2 + 1)) acc) (q, n)
        = ({ q with marks := q.marks ++ stagedMarks p ss fill ov tc },
           n + markCount p ss) := by
  induction ss with
  | nil =>
    intro q hq n
    simp [stagedMarks, markCount]
  | cons s rest ih =>
    intro q hq n
    rw [List.foldl_cons, stage_foldl fill ov tc (q.searchFor s) q n]
    have hsearch : q.searchFor s = p.searchFor s := searchFor_eq_of_spans hq s
    rw [ih _ (by simpa using hq) (n + (q.searchFor s).length)]
    simp only [Prod.mk.injEq]
    constructor
    · simp [stagedMarks, List.flatMap_cons, hsearch, List.append_assoc]
    · simp only [markCount, List.map_cons, List.sum_cons, hsearch]
      omega

lemma redactPageBySearch_eq (p : Page) (ss : List String) (fill : Color)
    (ov : String) (tc : Color) :
    redactPageBySearch p ss fill ov tc
      = ({ p with marks := p.marks ++ stagedMarks p ss fill ov tc }, markCount p ss) := by
  have := searchStage_loop p fill ov tc ss p rfl 0
  simpa [redactPageBySearch] using this

lemma stagedMarks_eq_nil (p : Page) (ss : List String) (fill : Color)
    (ov : String) (tc : Color) (h : markCount p ss = 0) :
    stagedMarks p ss fill ov tc = [] := by
  induction ss with
  | nil => rfl
  | cons s rest ih =>
    simp only [markCount, List.map_cons, List.sum_cons, Nat.add_eq_zero] at h
    have h1 : p.searchFor s = [] := List.length_eq_zero.mp h.1
    have h2 := ih (by simpa [markCount] using h.2)
    simp [stagedMarks, List.flatMap_cons, h1] at h2 ⊢
    exact h2

lemma redactSearchLoop_spec (ss : List String) (fill : Color) (ov : String)
    (tc : Color) :
    ∀ l : List (Nat × Page),
      redactSearchLoop ss fill ov tc l
        = (l.map (fun pr =>
            if 0 < markCount pr.2 ss then
              Page.applyRedactions
                { pr.2 with marks := pr.2.marks ++ stagedMarks pr.2 ss fill ov tc } false
            else pr.2),
          (l.map (fun pr => markCount pr.2 ss)).sum,
          (l.filter (fun pr => decide (0 < markCount pr.2 ss))).map
            (fun pr => ⟨pr.1, markCount pr.2 ss⟩)) := by
  intro l
  induction l with
  | nil => rfl
  | cons pr rest ih =>
    by_cases hc : 0 < markCount pr.2 ss
    · simp only [redactSearchLoop, redactPageBySearch_eq, ih, if_pos hc,
        List.map_cons, List.sum_cons, List.filter_cons, decide_eq_true hc]
      rfl
    · have hz : markCount pr.2 ss = 0 := Nat.eq_zero_of_not_pos hc
      have hpage : ({ pr.2 with marks := pr.2.marks ++ stagedMarks pr.2 ss fill ov tc } : Page)
          = pr.2 := by
        rw [stagedMarks_eq_nil pr.2 ss fill ov tc hz]
        simp
      simp only [redactSearchLoop, redactPageBySearch_eq, ih, if_neg hc, hpage,
        List.map_cons, List.sum_cons, List.filter_cons, decide_eq_false hc]
      rfl

/-- C3. `redact_text_by_search` stages, page by page in index order, one
mark per literal occurrence of each pattern in the given pattern order
(duplicated pattern entries are staged and counted twice), then commits each
page's marks in exactly one batch — and only for pages that received at
least one mark, which are left untouched otherwise; `total_redactions` is
the sum of the per-page mark counts, the summary lists exactly the marked
pages with their counts, and `pages_modified` is the number of such pages. -/
theorem redact_by_search_batching (doc : Document) (ss : List String) (cs : Bool)
    (fill : Color) (ov : String) (tc : Color) :
    (redactTextBySearch doc ss cs fill ov tc).totalRedactions
      = (doc.map (fun p => markCount p ss)).sum
    ∧ (redactTextBySearch doc ss cs fill ov tc).summary
      = (doc.enum.filter (fun pr => decide (0 < markCount pr.2 ss))).map
          (fun pr => ⟨pr.1, markCount pr.2 ss⟩)
    ∧ (redactTextBySearch doc ss cs fill ov tc).pagesModified
      = (doc.enum.filter (fun pr => decide (0 < markCount pr.2 ss))).length
    ∧ (redactTextBySearch doc ss cs fill ov tc).doc
      = doc.enum.map (fun pr =>
          if 0 < markCount pr.2 ss then
            Page.applyRedactions
              { pr.2 with marks := pr.2.marks ++ stagedMarks pr.2 ss fill ov tc } false
          else pr.2) := by
  have hsum : (doc.enum.map (fun pr => markCount pr.2 ss)).sum
      = (doc.map (fun p => markCount p ss)).sum := by
    have h1 : doc.enum.map (fun pr => markCount pr.2 ss)
        = (doc.enum.map Prod.snd).map (fun p => markCount p ss) := by
      rw [List.map_map]
      rfl
    rw [h1, List.enum_map_snd]
  refine ⟨?_, ?_, ?_, ?_⟩
  · simp only [redactTextBySearch, redactSearchLoop_spec]
    exact hsum
  · simp only [redactTextBySearch, redactSearchLoop_spec]
  · simp only [redactTextBySearch, redactSearchLoop_spec, List.length_map]
  · simp only [redactTextBySearch, redactSearchLoop_spec]

lemma searchFor_nil_of_no_span (p : Page) (x : String)
    (h : ∀ sp ∈ p.spans, countOccs x.data sp.text.data = 0) :
    p.searchFor x = [] := by
  have key : ∀ l : List Span, (∀ sp ∈ l, countOccs x.data sp.text.data = 0) →
      (l.flatMap fun sp => List.replicate (countOccs x.data sp.text.data) sp.rect) = [] := by
    intro l
    induction l with
    | nil => intro _; rfl
    | cons sp rest ih =>
      intro hl
      rw [List.flatMap_cons, hl sp (List.mem_cons_self sp rest), List.replicate_zero,
        List.nil_append]
      exact ih (fun sp' h' => hl sp' (List.mem_cons_of_mem _ h'))
  exact key p.spans h

lemma mem_searchFor_of_contains (p : Page) (x : String) (sp : Span)
    (hsp : sp ∈ p.spans) (hc : 0 < countOccs x.data sp.text.data) :
    sp.rect ∈ p.searchFor x := by
  unfold Page.searchFor
  rw [List.mem_flatMap]
  exact ⟨sp, hsp, List.mem_replicate.mpr ⟨by omega, rfl⟩⟩

/-- After the search loop has staged and committed on one page, the pattern
is no longer locatable on that page (the page's own span boxes are among the
marks, and a proper box meets itself). -/
lemma page_after_redact_no_occurrence (p : Page) (x : String) (fill : Color)
    (ov : String) (tc : Color)
    (hwf : p.spans.all (fun sp => sp.rect.proper) = true) :
    (if 0 < markCount p [x] then
        Page.applyRedactions
          { p with marks := p.marks ++ stagedMarks p [x] fill ov tc } false
      else p).searchFor x = [] := by
  by_cases hc : 0 < markCount p [x]
  · rw [if_pos hc]
    apply searchFor_nil_of_no_span
    intro sp hsp
    by_contra hne
    have hcpos : 0 < countOccs x.data sp.text.data := Nat.pos_of_ne_zero hne
    simp only [Page.applyRedactions] at hsp
    have h1 := List.mem_filter.mp hsp
    have hrect : sp.rect ∈ p.searchFor x := mem_searchFor_of_contains p x sp h1.1 hcpos
    have hmmark : (⟨sp.rect, ov, fill, some tc⟩ : Mark)
        ∈ p.marks ++ stagedMarks p [x] fill ov tc := by
      apply List.mem_append_right
      simp only [stagedMarks, List.flatMap_cons, List.flatMap_nil, List.append_nil,
        List.mem_map]
      exact ⟨sp.rect, hrect, rfl⟩
    have hproper : sp.rect.proper = true := by
      have := List.all_eq_true.mp hwf sp h1.1
      simpa using this
    have hint := intersects_self_of_proper hproper
    have hpred := h1.2
    simp only [Bool.not_eq_true', List.any_eq_false] at hpred
    have := hpred ⟨sp.rect, ov, fill, some tc⟩ hmmark
    simp only at this
    rw [hint] at this
    exact this rfl
  · rw [if_neg hc]
    have hz : (p.searchFor x).length = 0 := by
      have := Nat.eq_zero_of_not_pos hc
      simpa [markCount] using this
    exact List.length_eq_zero.mp hz

lemma pageAtN_mem (d : Document) (i : Nat) (h : i < d.length) : pageAtN d i ∈ d := by
  have : d[i]? = some d[i] := List.getElem?_eq_getElem h
  rw [pageAtN, this]
  exact List.getElem_mem h

lemma range_cast_bounds (n : Nat) :
    ∀ pn ∈ (List.range n).map (fun k : Nat => (k : Int)), 0 ≤ pn ∧ pn < (n : Int) := by
  intro pn hpn
  simp only [List.mem_map, List.mem_range] at hpn
  obtain ⟨k, hk, rfl⟩ := hpn
  exact ⟨Int.natCast_nonneg k, by exact_mod_cast hk⟩

lemma searchPagesLoop_all_empty (d : Document) (x : String) (cs : Bool) :
    ∀ l : List Int, (∀ pn ∈ l, 0 ≤ pn ∧ pn < (d.length : Int)) →
      (∀ page ∈ d, page.searchFor x = []) →
      searchPagesLoop d x cs false l = .ok [] := by
  intro l
  induction l with
  | nil => intro _ _; rfl
  | cons pn rest ih =>
    intro hb hall
    have h0 := hb pn (List.mem_cons_self pn rest)
    have hmem : pageAtN d pn.toNat ∈ d := by
      apply pageAtN_mem
      omega
    simp only [searchPagesLoop, docGet_in_range d pn h0.1 h0.2,
      ih (fun q hq => hb q (List.mem_cons_of_mem _ hq)) hall]
    simp [searchMatchesOnPage, hall _ hmem]

/-- C2. Redacting every occurrence of a literal pattern with
`redact_text_by_search` and then searching the saved result for that pattern
finds nothing: for any well-formed document (every span box proper, as real
page content is) that contains the pattern in its text layer, the follow-up
`search_text_in_pdf` reports `total_matches = 0`. -/
theorem redact_then_search_zero_matches (doc : Document) (x : String) (cs : Bool)
    (fill : Color) (ov : String) (tc : Color)
    (hwf : doc.all (fun p => p.spans.all (fun sp => sp.rect.proper)) = true)
    (hx : doc.any (fun p =>
      p.spans.any (fun sp => decide (0 < countOccs x.data sp.text.data))) = true) :
    searchTextInPdf (redactTextBySearch doc [x] cs fill ov tc).doc x false false none
      = .ok ⟨x, 0, []⟩ := by
  have hall : ∀ page ∈ (redactTextBySearch doc [x] cs fill ov tc).doc,
      page.searchFor x = [] := by
    intro page hpage
    simp only [redactTextBySearch, redactSearchLoop_spec, List.mem_map] at hpage
    obtain ⟨pr, hpr, rfl⟩ := hpage
    have hsnd : pr.2 ∈ doc := by
      obtain ⟨i, p0⟩ := pr
      have h2 := List.mem_enum hpr
      rw [h2.2]
      exact List.getElem_mem h2.1
    have hwfp : pr.2.spans.all (fun sp => sp.rect.proper) = true :=
      List.all_eq_true.mp hwf pr.2 hsnd
    exact page_after_redact_no_occurrence pr.2 x fill ov tc hwfp
  have hloop := searchPagesLoop_all_empty
    (redactTextBySearch doc [x] cs fill ov tc).doc x false
    ((List.range (redactTextBySearch doc [x] cs fill ov tc).doc.length).map
      (fun k : Nat => (k : Int)))
    (range_cast_bounds _) hall
  simp only [searchTextInPdf, hloop]
  rfl

/-! ## C8: image redaction -/

lemma map_congr' {α β : Type} (l : List α) (f g : α → β)
    (h : ∀ a ∈ l, f a = g a) : l.map f = l.map g := by
  induction l with
  | nil => rfl
  | cons a rest ih =>
    simp only [List.map_cons, h a (List.mem_cons_self a rest),
      ih (fun b hb => h b (List.mem_cons_of_mem _ hb))]

lemma filter_congr' {α : Type} (l : List α) (p q : α → Bool)
    (h : ∀ a ∈ l, p a = q a) : l.filter p = l.filter q := by
  induction l with
  | nil => rfl
  | cons a rest ih =>
    rw [List.filter_cons, List.filter_cons, h a (List.mem_cons_self a rest),
      ih (fun b hb => h b (List.mem_cons_of_mem _ hb))]

lemma imgStage_foldl (fill : Color) (ov : String) (imgs : List PdfImage) :
    ∀ (q : Page) (n : Nat),
      imgs.foldl (fun acc img =>
          if img.bbox.isInfinite then acc
          else (acc.1.addRedactAnnot img.bbox ov fill (some (1, 1, 1)), acc.2 + 1)) (q, n)
        = ({ q with marks := (q.marks ++ (imgs.filter (fun im => !im.bbox.isInfinite)).map
              (fun im => ⟨im.bbox, ov, fill, some (1, 1, 1)⟩)) },
           n + (imgs.filter (fun im => !im.bbox.isInfinite)).length) := by
  induction imgs with
  | nil => intro q n; simp
  | cons img rest ih =>
    intro q n
    rw [List.foldl_cons]
    by_cases h : img.bbox.isInfinite = true
    · rw [if_pos h, ih q n, List.filter_cons]
      simp [h]
    · rw [if_neg h, ih, List.filter_cons]
      have hb : img.bbox.isInfinite = false := by simpa using h
      simp only [hb, Bool.not_false, if_true]
      simp only [Page.addRedactAnnot, List.map_cons, List.length_cons, Prod.mk.injEq]
      refine ⟨by simp [List.append_assoc], by omega⟩

lemma stageImagesOnPage_eq (p : Page) (fill : Color) (ov : String) :
    stageImagesOnPage p fill ov = (stagedImgPage p fill ov, pageImgCount p) := by
  have := imgStage_foldl fill ov p.images p 0
  simpa [stageImagesOnPage, stagedImgPage, pageImgCount] using this

lemma doc_eq_range_map (doc : Document) :
    (List.range doc.length).map (fun i => pageAtN doc i) = doc := by
  apply List.ext_getElem
  · simp
  · intro i h1 h2
    simp only [List.getElem_map, List.getElem_range]
    simp [pageAtN, List.getElem?_eq_getElem h2]

lemma pageAtN_set_ne (d : Document) (i j : Nat) (p : Page) (h : i ≠ j) :
    pageAtN (d.set i p) j = pageAtN d j := by
  simp [pageAtN, List.getElem?_set, h]

lemma pageAtN_set_eq (d : Document) (i : Nat) (p : Page) (h : i < d.length) :
    pageAtN (d.set i p) i = p := by
  simp [pageAtN, List.getElem?_set, h]

/-- The image-redaction page loop, on a duplicate-free page selection:
each selected in-range page is processed independently (staged, and
committed with image removal exactly when it received a mark), out-of-range
selections are skipped, and the totals and summary accumulate over the valid
selections in order. -/
lemma redactImages_foldl (fill : Color) (ov : String) :
    ∀ (l : List Int) (doc : Document) (acc : Nat) (summ : List ImgSummary),
      l.Nodup →
      l.foldl (redactImagesStep fill ov) (doc, acc, summ)
        = ((List.range doc.length).map (fun i : Nat =>
            if (i : Int) ∈ l then processImgPage (pageAtN doc i) fill ov
            else pageAtN doc i),
          acc + ((l.filter (validPage doc.length)).map
            (fun pn => pageImgCount (pageAtN doc pn.toNat))).sum,
          summ ++ (l.filter (fun pn => validPage doc.length pn
              && decide (0 < pageImgCount (pageAtN doc pn.toNat)))).map
            (fun pn => ⟨pn, pageImgCount (pageAtN doc pn.toNat)⟩)) := by
  intro l
  induction l with
  | nil =>
    intro doc acc summ _
    simp only [List.foldl_nil, List.not_mem_nil, if_false, List.filter_nil,
      List.map_nil, List.sum_nil, List.append_nil, Nat.add_zero, doc_eq_range_map]
  | cons pn rest ih =>
    intro doc acc summ hnd
    rw [List.nodup_cons] at hnd
    obtain ⟨hpn, hndrest⟩ := hnd
    rw [List.foldl_cons]
    by_cases hcond : pn < 0 ∨ (doc.length : Int) ≤ pn
    · -- the selection is out of range: the step is the identity
      have hstep : redactImagesStep fill ov (doc, acc, summ) pn = (doc, acc, summ) := by
        simp [redactImagesStep, hcond]
      have hvfalse : validPage doc.length pn = false := by
        rcases hcond with h | h
        · simp only [validPage, Bool.and_eq_false_iff, decide_eq_false_iff_not]
          exact Or.inl (by omega)
        · simp only [validPage, Bool.and_eq_false_iff, decide_eq_false_iff_not]
          exact Or.inr (by omega)
      rw [hstep, ih doc acc summ hndrest]
      have hfirst : (List.range doc.length).map (fun i : Nat =>
            if (i : Int) ∈ rest then processImgPage (pageAtN doc i) fill ov
            else pageAtN doc i)
          = (List.range doc.length).map (fun i : Nat =>
            if (i : Int) ∈ pn :: rest then processImgPage (pageAtN doc i) fill ov
            else pageAtN doc i) := by
        apply map_congr'
        intro i hi
        have hiN : i < doc.length := List.mem_range.mp hi
        have hmemiff : ((i : Int) ∈ pn :: rest) ↔ ((i : Int) ∈ rest) := by
          rw [List.mem_cons]
          constructor
          · rintro (h | h)
            · exfalso
              rcases hcond with h2 | h2 <;> omega
            · exact h
          · exact Or.inr
        rw [if_congr hmemiff.symm rfl rfl]
      rw [hfirst, List.filter_cons, List.filter_cons, hvfalse]
      simp
    · -- the selection is in range
      have hv : 0 ≤ pn ∧ pn < (doc.length : Int) := by omega
      have hi0 : pn.toNat < doc.length := by omega
      have hcast : ((pn.toNat : Int)) = pn := Int.toNat_of_nonneg hv.1
      have hstep : redactImagesStep fill ov (doc, acc, summ) pn
          = (doc.set pn.toNat (processImgPage (pageAtN doc pn.toNat) fill ov),
             acc + pageImgCount (pageAtN doc pn.toNat),
             summ ++ (if 0 < pageImgCount (pageAtN doc pn.toNat)
               then [⟨pn, pageImgCount (pageAtN doc pn.toNat)⟩] else [])) := by
        simp only [redactImagesStep, if_neg hcond, stageImagesOnPage_eq, processImgPage]
      rw [hstep, ih _ _ _ hndrest]
      have hlen : (doc.set pn.toNat (processImgPage (pageAtN doc pn.toNat) fill ov)).length
          = doc.length := List.length_set doc pn.toNat _
      have hvtrue : validPage doc.length pn = true := by
        simp only [validPage, Bool.and_eq_true, decide_eq_true_eq]
        exact hv
      -- the processed document agrees with per-page processing of the original
      have hfirst : (List.range (doc.set pn.toNat
              (processImgPage (pageAtN doc pn.toNat) fill ov)).length).map (fun i : Nat =>
            if (i : Int) ∈ rest then
              processImgPage (pageAtN (doc.set pn.toNat
                (processImgPage (pageAtN doc pn.toNat) fill ov)) i) fill ov
            else pageAtN (doc.set pn.toNat
              (processImgPage (pageAtN doc pn.toNat) fill ov)) i)
          = (List.range doc.length).map (fun i : Nat =>
            if (i : Int) ∈ pn :: rest then processImgPage (pageAtN doc i) fill ov
            else pageAtN doc i) := by
        rw [hlen]
        apply map_congr'
        intro i hi
        have hiN : i < doc.length := List.mem_range.mp hi
        by_cases hieq : i = pn.toNat
        · subst hieq
          have hset := pageAtN_set_eq doc pn.toNat
            (processImgPage (pageAtN doc pn.toNat) fill ov) hi0
          have hnotrest : ((pn.toNat : Int) ∉ rest) := by
            rw [hcast]
            exact hpn
          have hmem : ((pn.toNat : Int) ∈ pn :: rest) := by
            rw [List.mem_cons]
            exact Or.inl hcast
          rw [if_neg hnotrest, if_pos hmem, hset]
        · have hset := pageAtN_set_ne doc pn.toNat i
            (processImgPage (pageAtN doc pn.toNat) fill ov) (fun h => hieq h.symm)
          have hmemiff : ((i : Int) ∈ pn :: rest) ↔ ((i : Int) ∈ rest) := by
            rw [List.mem_cons]
            constructor
            · rintro (h | h)
              · exfalso
                apply hieq
                omega
              · exact h
            · exact Or.inr
          rw [hset, if_congr hmemiff rfl rfl]
      rw [hfirst]
      -- totals and summary over the remaining (distinct) selections are
      -- computed on unchanged pages
      have hpages : ∀ pn' ∈ rest, validPage doc.length pn' = true →
          pageAtN (doc.set pn.toNat (processImgPage (pageAtN doc pn.toNat) fill ov))
              pn'.toNat
            = pageAtN doc pn'.toNat := by
        intro pn' hmem hvalid
        simp only [validPage, Bool.and_eq_true, decide_eq_true_eq] at hvalid
        apply pageAtN_set_ne
        intro hNat
        apply hpn
        have : pn' = pn := by omega
        rw [← this]
        exact hmem
      have hsum : (rest.filter (validPage (doc.set pn.toNat
              (processImgPage (pageAtN doc pn.toNat) fill ov)).length)).map
            (fun pn' => pageImgCount (pageAtN (doc.set pn.toNat
              (processImgPage (pageAtN doc pn.toNat) fill ov)) pn'.toNat))
          = (rest.filter (validPage doc.length)).map
            (fun pn' => pageImgCount (pageAtN doc pn'.toNat)) := by
        rw [hlen]
        apply map_congr'
        intro pn' hmem'
        have h1 := List.mem_filter.mp hmem'
        rw [hpages pn' h1.1 h1.2]
      have hsummtail : (rest.filter (fun pn' => validPage (doc.set pn.toNat
              (processImgPage (pageAtN doc pn.toNat) fill ov)).length pn'
            && decide (0 < pageImgCount (pageAtN (doc.set pn.toNat
              (processImgPage (pageAtN doc pn.toNat) fill ov)) pn'.toNat)))).map
            (fun pn' => (⟨pn', pageImgCount (pageAtN (doc.set pn.toNat
              (processImgPage (pageAtN doc pn.toNat) fill ov)) pn'.toNat)⟩ : ImgSummary))
          = (rest.filter (fun pn' => validPage doc.length pn'
            && decide (0 < pageImgCount (pageAtN doc pn'.toNat)))).map
            (fun pn' => ⟨pn', pageImgCount (pageAtN doc pn'.toNat)⟩) := by
        rw [hlen]
        have hfc : (rest.filter (fun pn' => validPage doc.length pn'
              && decide (0 < pageImgCount (pageAtN (doc.set pn.toNat
                (processImgPage (pageAtN doc pn.toNat) fill ov)) pn'.toNat))))
            = (rest.filter (fun pn' => validPage doc.length pn'
              && decide (0 < pageImgCount (pageAtN doc pn'.toNat)))) := by
          apply filter_congr'
          intro pn' hmem'
          by_cases hval : validPage doc.length pn' = true
          · rw [hpages pn' hmem' hval]
          · have : validPage doc.length pn' = false := by simpa using hval
            rw [this, Bool.false_and, Bool.false_and]
        rw [hfc]
        apply map_congr'
        intro pn' hmem'
        have h1 := List.mem_filter.mp hmem'
        have hval : validPage doc.length pn' = true := by
          have := h1.2
          simp only [Bool.and_eq_true] at this
          exact this.1
        rw [hpages pn' h1.1 hval]
      rw [hsum, hsummtail]
      refine congrArg₂ Prod.mk rfl (congrArg₂ Prod.mk ?_ ?_)
      · rw [List.filter_cons, if_pos hvtrue, List.map_cons, List.sum_cons]
        omega
      · by_cases hc : 0 < pageImgCount (pageAtN doc pn.toNat)
        · have hq : (validPage doc.length pn
              && decide (0 < pageImgCount (pageAtN doc pn.toNat))) = true := by
            rw [hvtrue, decide_eq_true hc]
            rfl
          rw [List.filter_cons, hq, if_pos hc]
          simp
        · have hq : (validPage doc.length pn
              && decide (0 < pageImgCount (pageAtN doc pn.toNat))) = false := by
            rw [hvtrue, decide_eq_false hc]
            rfl
          rw [List.filter_cons, hq, if_neg hc]
          simp

/-- C8 counterexample. The claim says an image whose resolved bounding box
is degenerate *or* unbounded is skipped without being counted; the code
tests only `is_infinite`. A one-page document with a single image whose
bounding box is the degenerate (empty, not infinite) rectangle
(0, 0, 0, 0) has that image staged and counted: `total_images_redacted`
is 1, not 0. -/
theorem redact_images_degenerate_box_counted :
    Rect.isDegenerate ⟨0, 0, 0, 0⟩ = true
    ∧ Rect.isInfinite ⟨0, 0, 0, 0⟩ = false
    ∧ (redactImagesInPdf [⟨[], [⟨"img0", ⟨0, 0, 0, 0⟩⟩], []⟩] none (0, 0, 0)
        "[IMAGE REDACTED]").totalImagesRedacted = 1
    ∧ (redactImagesInPdf [⟨[], [⟨"img0", ⟨0, 0, 0, 0⟩⟩], []⟩] none (0, 0, 0)
        "[IMAGE REDACTED]").summary = [⟨0, 1⟩] := by
  decide

/-- C8 (amended). For a duplicate-free page selection, `redact_images_in_pdf`
enumerates the embedded images of each selected in-range page (all pages
when the selection is omitted), skips exactly the images whose resolved
bounding box is the unbounded (infinite) rectangle — a degenerate but finite
box is *not* skipped — stages one mark over each remaining image, and
commits with the image-removal policy exactly on the pages that received at
least one mark, which alone enter the summary; the total is the sum of the
per-page counts of non-skipped images. -/
theorem redact_images_skip_unbounded_only (doc : Document)
    (pns : Option (List Int)) (fill : Color) (ov : String)
    (hnd : (imgPagesToProcess doc pns).Nodup) :
    (redactImagesInPdf doc pns fill ov).totalImagesRedacted
      = (((imgPagesToProcess doc pns).filter (validPage doc.length)).map
          (fun pn => pageImgCount (pageAtN doc pn.toNat))).sum
    ∧ (redactImagesInPdf doc pns fill ov).summary
      = ((imgPagesToProcess doc pns).filter (fun pn => validPage doc.length pn
          && decide (0 < pageImgCount (pageAtN doc pn.toNat)))).map
          (fun pn => ⟨pn, pageImgCount (pageAtN doc pn.toNat)⟩)
    ∧ (redactImagesInPdf doc pns fill ov).pagesProcessed
      = ((imgPagesToProcess doc pns).filter (fun pn => validPage doc.length pn
          && decide (0 < pageImgCount (pageAtN doc pn.toNat)))).length
    ∧ (redactImagesInPdf doc pns fill ov).doc
      = (List.range doc.length).map (fun i : Nat =>
          if (i : Int) ∈ imgPagesToProcess doc pns then
            processImgPage (pageAtN doc i) fill ov
          else pageAtN doc i)
    ∧ (∀ p : Page, stageImagesOnPage p fill ov = (stagedImgPage p fill ov, pageImgCount p))
    ∧ (∀ p : Page, processImgPage p fill ov
        = if 0 < pageImgCount p then (stagedImgPage p fill ov).applyRedactions true
          else stagedImgPage p fill ov) := by
  have hfold := redactImages_foldl fill ov (imgPagesToProcess doc pns) doc 0 [] hnd
  refine ⟨?_, ?_, ?_, ?_, fun p => stageImagesOnPage_eq p fill ov, fun p => rfl⟩
  · simp only [redactImagesInPdf, hfold, Nat.zero_add]
  · simp only [redactImagesInPdf, hfold, List.nil_append]
  · simp only [redactImagesInPdf, hfold, List.nil_append, List.length_map]
  · simp only [redactImagesInPdf, hfold]

/-- Witness for the amended C8 theorem at a concrete one-page document
holding one placed image and one unplaced (infinite-box) image, with the
explicit selection [0]. -/
theorem redact_images_skip_unbounded_only_witness :
    (imgPagesToProcess [⟨[], [⟨"a", ⟨0, 0, 2, 2⟩⟩, ⟨"b", infiniteRect⟩], []⟩]
        (some [0])).Nodup
    ∧ (redactImagesInPdf [⟨[], [⟨"a", ⟨0, 0, 2, 2⟩⟩, ⟨"b", infiniteRect⟩], []⟩]
        (some [0]) (0, 0, 0) "[IMAGE REDACTED]").totalImagesRedacted
      = (((imgPagesToProcess [⟨[], [⟨"a", ⟨0, 0, 2, 2⟩⟩, ⟨"b", infiniteRect⟩], []⟩]
            (some [0])).filter
          (validPage ([⟨[], [⟨"a", ⟨0, 0, 2, 2⟩⟩, ⟨"b", infiniteRect⟩], []⟩] :
            Document).length)).map
          (fun pn => pageImgCount
            (pageAtN [⟨[], [⟨"a", ⟨0, 0, 2, 2⟩⟩, ⟨"b", infiniteRect⟩], []⟩] pn.toNat))).sum :=
  ⟨by decide,
    (redact_images_skip_unbounded_only
      [⟨[], [⟨"a", ⟨0, 0, 2, 2⟩⟩, ⟨"b", infiniteRect⟩], []⟩]
      (some [0]) (0, 0, 0) "[IMAGE REDACTED]" (by decide)).1⟩

/-- Witness for the C2 theorem at a concrete one-page document containing
the literal pattern "X". -/
theorem redact_then_search_zero_matches_witness :
    ([⟨[⟨⟨0, 0, 5, 1⟩, "the X files"⟩], [], []⟩] : Document).all
        (fun p => p.spans.all (fun sp => sp.rect.proper)) = true
    ∧ ([⟨[⟨⟨0, 0, 5, 1⟩, "the X files"⟩], [], []⟩] : Document).any
        (fun p => p.spans.any (fun sp => decide (0 < countOccs "X".data sp.text.data))) = true
    ∧ searchTextInPdf (redactTextBySearch [⟨[⟨⟨0, 0, 5, 1⟩, "the X files"⟩], [], []⟩]
        ["X"] false (0, 0, 0) "" (1, 1, 1)).doc "X" false false none
      = .ok ⟨"X", 0, []⟩ :=
  ⟨by decide, by decide,
    redact_then_search_zero_matches [⟨[⟨⟨0, 0, 5, 1⟩, "the X files"⟩], [], []⟩]
      "X" false (0, 0, 0) "" (1, 1, 1) (by decide) (by decide)⟩

end PdfRedactionMcp
